import Mathlib

/-!
Shallow embedding of `models.py`: the four sparse dictionary-learning models
(SparseCoding, SparseAutoEncoder, GatedSAE, TopKSAE) over exact real
arithmetic.  The top-k machinery is kept generic over a linear ordered field
so that it stays executable (e.g. over `ℚ`); the model layer itself lives over
`ℝ` because row normalization uses the L2 norm (square root) and the codes use
the exponential.  In-place parameter mutation (`self.D_.data /= ...`) is
modelled by returning the updated state from `forward`; the `torch.topk`
failure on `k > n` is modelled with `Option`.
-/

section TopKGeneric

variable {α : Type} [LinearOrderedField α] {n : ℕ}

/-- Elementwise ReLU on a scalar, `torch.relu` / `nn.ReLU`. -/
def relu (a : α) : α := max a 0

/-- `torch.sign` on a scalar. -/
def torchSign (a : α) : α := if a < 0 then -1 else if a = 0 then 0 else 1

/-- Index of a maximal element of the candidate list `l` (the earliest index
among ties), the selection primitive behind `torch.topk`. -/
def argmaxList (x : Fin n → α) : List (Fin n) → Option (Fin n)
  | [] => none
  | i :: is =>
    match argmaxList x is with
    | none => some i
    | some j => if x i < x j then some j else some i

/-- Greedily pick `k` indices of largest value from the candidate list. -/
def selectTopK (x : Fin n → α) : ℕ → List (Fin n) → List (Fin n)
  | 0, _ => []
  | k + 1, l =>
    match argmaxList x l with
    | none => []
    | some i => i :: selectTopK x k (l.erase i)

/-- The indices produced by `torch.topk(x, k, dim=-1)` on one innermost row. -/
def topkIndices (x : Fin n → α) (k : ℕ) : List (Fin n) :=
  selectTopK x k (List.finRange n)

/-- `result.scatter_(-1, idx, vals)` on one row, starting from `base`
(sequential writes, later writes win). -/
def scatter : (Fin n → α) → List (Fin n) → List α → Fin n → α
  | base, [], _ => base
  | base, _ :: _, [] => base
  | base, i :: is, v :: vs => scatter (Function.update base i v) is vs

/-- The `TopK` activation module (`models.py` lines 173-184): the top-k
parameter `k` together with the post-activation function (default `nn.ReLU`). -/
structure TopK (α : Type) where
  k : ℕ
  postact_fn : α → α

/-- The successful branch of `TopK.forward` on one row: zeros, with the
post-activated top-k values scattered back at their indices. -/
def TopK.apply (t : TopK α) (x : Fin n → α) : Fin n → α :=
  scatter (fun _ => 0) (topkIndices x t.k)
    (((topkIndices x t.k).map x).map t.postact_fn)

/-- `TopK.forward` on one row; `torch.topk` raises when `k` exceeds the size
of the last dimension, modelled as `none`. -/
def TopK.forward (t : TopK α) (x : Fin n → α) : Option (Fin n → α) :=
  if t.k ≤ n then some (t.apply x) else none

/-- Batched matrix product, `S_ @ D_`. -/
def matmul {b n m : ℕ} (A : Fin b → Fin n → α) (B : Fin n → Fin m → α) :
    Fin b → Fin m → α :=
  fun i j => ∑ k, A i k * B k j

theorem argmaxList_eq_none {x : Fin n → α} :
    ∀ {l : List (Fin n)}, argmaxList x l = none → l = [] := by
  intro l h
  cases l with
  | nil => rfl
  | cons a as =>
    exfalso
    rcases h' : argmaxList x as with _ | j <;> simp [argmaxList, h'] at h
    revert h
    split <;> simp

theorem argmaxList_mem {x : Fin n → α} :
    ∀ {l : List (Fin n)} {i : Fin n}, argmaxList x l = some i → i ∈ l := by
  intro l
  induction l with
  | nil => intro i h; simp [argmaxList] at h
  | cons a as ih =>
    intro i h
    rcases h' : argmaxList x as with _ | j <;> simp only [argmaxList, h'] at h
    · obtain rfl := Option.some.inj h
      exact List.mem_cons_self _ _
    · by_cases hc : x a < x j
      · rw [if_pos hc] at h
        simp only [Option.some.injEq] at h
        exact List.mem_cons_of_mem _ (h ▸ ih h')
      · rw [if_neg hc] at h
        simp only [Option.some.injEq] at h
        simp [← h]

theorem argmaxList_le {x : Fin n → α} :
    ∀ {l : List (Fin n)} {i : Fin n}, argmaxList x l = some i →
      ∀ j ∈ l, x j ≤ x i := by
  intro l
  induction l with
  | nil => intro i h; simp [argmaxList] at h
  | cons a as ih =>
    intro i h j hj
    rcases h' : argmaxList x as with _ | b <;> simp only [argmaxList, h'] at h
    · have : as = [] := argmaxList_eq_none h'
      subst this
      obtain rfl := Option.some.inj h
      rcases List.mem_singleton.mp hj with rfl
      exact le_refl _
    · by_cases hc : x a < x b
      · rw [if_pos hc] at h
        simp only [Option.some.injEq] at h
        subst h
        rcases List.mem_cons.mp hj with rfl | hj'
        · exact le_of_lt hc
        · exact ih h' _ hj'
      · rw [if_neg hc] at h
        simp only [Option.some.injEq] at h
        subst h
        rcases List.mem_cons.mp hj with rfl | hj'
        · exact le_refl _
        · exact le_trans (ih h' _ hj') (le_of_not_lt hc)

theorem selectTopK_subset {x : Fin n → α} :
    ∀ (k : ℕ) (l : List (Fin n)) (i : Fin n),
      i ∈ selectTopK x k l → i ∈ l := by
  intro k
  induction k with
  | zero => intro l i h; simp [selectTopK] at h
  | succ k ih =>
    intro l i h
    rcases h' : argmaxList x l with _ | a <;> rw [selectTopK, h'] at h
    · simp at h
    · rcases List.mem_cons.mp h with rfl | h''
      · exact argmaxList_mem h'
      · exact List.mem_of_mem_erase (ih _ _ h'')

theorem selectTopK_length {x : Fin n → α} :
    ∀ (k : ℕ) (l : List (Fin n)), k ≤ l.length →
      (selectTopK x k l).length = k := by
  intro k
  induction k with
  | zero => intro l _; simp [selectTopK]
  | succ k ih =>
    intro l hk
    have hl : l ≠ [] := by
      intro h
      subst h
      simp at hk
    rcases h' : argmaxList x l with _ | a
    · exact absurd (argmaxList_eq_none h') hl
    · rw [selectTopK, h']
      have hmem : a ∈ l := argmaxList_mem h'
      have hlen : (l.erase a).length + 1 = l.length :=
        List.length_erase_add_one hmem
      simp only [List.length_cons]
      rw [ih _ (by omega)]

theorem selectTopK_nodup {x : Fin n → α} :
    ∀ (k : ℕ) (l : List (Fin n)), l.Nodup → (selectTopK x k l).Nodup := by
  intro k
  induction k with
  | zero => intro l _; simp [selectTopK]
  | succ k ih =>
    intro l hl
    rcases h' : argmaxList x l with _ | a <;> rw [selectTopK, h']
    · simp
    · refine List.nodup_cons.mpr ⟨?_, ih _ (hl.erase a)⟩
      intro hmem
      exact (hl.mem_erase_iff.mp (selectTopK_subset _ _ _ hmem)).1 rfl

theorem selectTopK_dominates {x : Fin n → α} :
    ∀ (k : ℕ) (l : List (Fin n)),
      ∀ i ∈ selectTopK x k l, ∀ j ∈ l, j ∉ selectTopK x k l → x j ≤ x i := by
  intro k
  induction k with
  | zero => intro l i hi; simp [selectTopK] at hi
  | succ k ih =>
    intro l i hi j hj hj'
    rcases h' : argmaxList x l with _ | a <;> rw [selectTopK, h'] at hi hj'
    · simp at hi
    · have hja : j ≠ a := by
        intro h
        exact hj' (h ▸ List.mem_cons_self _ _)
      have hjrest : j ∉ selectTopK x k (l.erase a) := by
        intro h
        exact hj' (List.mem_cons_of_mem _ h)
      rcases List.mem_cons.mp hi with rfl | hi'
      · exact argmaxList_le h' _ hj
      · exact ih _ _ hi' _ ((List.mem_erase_of_ne hja).mpr hj) hjrest

theorem scatter_map {g : Fin n → α} (idx : List (Fin n)) :
    ∀ (base : Fin n → α), idx.Nodup →
      scatter base idx (idx.map g) = fun j => if j ∈ idx then g j else base j := by
  induction idx with
  | nil => intro base _; funext j; simp [scatter]
  | cons a as ih =>
    intro base hnd
    rcases List.nodup_cons.mp hnd with ⟨ha, has⟩
    funext j
    rw [List.map_cons, scatter, ih _ has]
    by_cases hj : j ∈ as
    · have hja : j ≠ a := fun h => ha (h ▸ hj)
      simp [hj, hja]
    · by_cases hja : j = a
      · subst hja
        simp [ha, Function.update]
      · simp [hj, hja, Function.update, hja]

theorem topkIndices_nodup {x : Fin n → α} {k : ℕ} : (topkIndices x k).Nodup :=
  selectTopK_nodup _ _ (List.nodup_finRange n)

theorem topkIndices_length {x : Fin n → α} {k : ℕ} (hk : k ≤ n) :
    (topkIndices x k).length = k :=
  selectTopK_length _ _ (by simpa using hk)

theorem topkIndices_dominates {x : Fin n → α} {k : ℕ} :
    ∀ i ∈ topkIndices x k, ∀ j, j ∉ topkIndices x k → x j ≤ x i := by
  intro i hi j hj
  exact selectTopK_dominates _ _ i hi j (List.mem_finRange j) hj

theorem TopK.apply_eq (t : TopK α) (x : Fin n → α) :
    t.apply x =
      fun j => if j ∈ topkIndices x t.k then t.postact_fn (x j) else 0 := by
  unfold TopK.apply
  rw [List.map_map, scatter_map _ _ topkIndices_nodup]
  rfl

end TopKGeneric

section Models

set_option linter.unusedSectionVars false

/-- Row-wise L2 norm, `torch.linalg.norm(A, dim=1)` (also `Tensor.norm(dim=-1)`). -/
noncomputable def rowNorm {n m : ℕ} (A : Fin n → Fin m → ℝ) (i : Fin n) : ℝ :=
  Real.sqrt (∑ j, A i j ^ 2)

/-- The in-place renormalization `D_.data /= torch.linalg.norm(D_, dim=1, keepdim=True)`. -/
noncomputable def normalizeRows {n m : ℕ} (A : Fin n → Fin m → ℝ) :
    Fin n → Fin m → ℝ :=
  fun i j => A i j / rowNorm A i

/-- `SparseCoding` state: per-example log-codes and the dictionary. -/
structure SparseCoding (b n m : ℕ) where
  learn_D : Bool
  log_S_ : Fin b → Fin n → ℝ
  D_ : Fin n → Fin m → ℝ

/-- `SparseCoding.__init__`; `b` is `S.shape[0]` and `randn` stands for the
seeded draw `torch.randn(D.shape)` used when the dictionary is learned. -/
noncomputable def SparseCoding.init (b : ℕ) {n m : ℕ} (D : Fin n → Fin m → ℝ)
    (learn_D : Bool) (randn : Fin n → Fin m → ℝ) : SparseCoding b n m :=
  { learn_D := learn_D
    log_S_ := fun _ _ => -10
    D_ := if learn_D then randn else D }

/-- `SparseCoding.forward(X=None)`: renormalize the dictionary in place when
learned, then `S_ = exp(log_S_)`, `X_ = S_ @ D_`.  The argument `X` is
accepted but unused.  Returns the updated state together with `(S_, X_)`. -/
noncomputable def SparseCoding.forward {b n m : ℕ} (mdl : SparseCoding b n m)
    (X : Option (Fin b → Fin m → ℝ)) :
    SparseCoding b n m × (Fin b → Fin n → ℝ) × (Fin b → Fin m → ℝ) :=
  let D := if mdl.learn_D then normalizeRows mdl.D_ else mdl.D_
  let S_ := fun i j => Real.exp (mdl.log_S_ i j)
  ({ mdl with D_ := D }, S_, matmul S_ D)

/-- `SparseCoding.loss_forward(X, weight)`. -/
noncomputable def SparseCoding.loss_forward {b n m : ℕ} (mdl : SparseCoding b n m)
    (X : Fin b → Fin m → ℝ) (weight : ℝ) :
    SparseCoding b n m × (Fin b → Fin n → ℝ) × (Fin b → Fin m → ℝ) × ℝ :=
  let r := SparseCoding.forward mdl (some X)
  (r.1, r.2.1, r.2.2,
    (∑ i, ∑ j, (X i j - r.2.2 i j) ^ 2) + weight * ∑ i, ∑ j, |r.2.1 i j|)

/-- `SparseAutoEncoder` state: the `nn.Linear(M, N)` encoder (`weight`,
`bias`), the activation selector (`relu=True` for `nn.ReLU`, else `Exp`)
and the dictionary. -/
structure SparseAutoEncoder (n m : ℕ) where
  learn_D : Bool
  relu : Bool
  weight : Fin n → Fin m → ℝ
  bias : Fin n → ℝ
  D_ : Fin n → Fin m → ℝ

/-- `SparseAutoEncoder.__init__`; `randW`/`randb` stand for the seeded
`nn.Linear` initialization and `randD` for `torch.randn(D.shape)`. -/
noncomputable def SparseAutoEncoder.init {n m : ℕ} (D : Fin n → Fin m → ℝ)
    (learn_D : Bool) (relu : Bool) (randW : Fin n → Fin m → ℝ)
    (randb : Fin n → ℝ) (randD : Fin n → Fin m → ℝ) : SparseAutoEncoder n m :=
  { learn_D := learn_D
    relu := relu
    weight := randW
    bias := randb
    D_ := if learn_D then randD else D }

/-- `SparseAutoEncoder.forward(X)`: renormalize the dictionary when learned,
`S_ = activation(encoder(X))`, `X_ = S_ @ D_`. -/
noncomputable def SparseAutoEncoder.forward {n m : ℕ} (mdl : SparseAutoEncoder n m)
    {b : ℕ} (X : Fin b → Fin m → ℝ) :
    SparseAutoEncoder n m × (Fin b → Fin n → ℝ) × (Fin b → Fin m → ℝ) :=
  let D := if mdl.learn_D then normalizeRows mdl.D_ else mdl.D_
  let pre := fun i j => (∑ k, X i k * mdl.weight j k) + mdl.bias j
  let S_ := fun i j => if mdl.relu then max (pre i j) 0 else Real.exp (pre i j)
  ({ mdl with D_ := D }, S_, matmul S_ D)

/-- `SparseAutoEncoder.loss_forward(X, weight)`. -/
noncomputable def SparseAutoEncoder.loss_forward {n m : ℕ}
    (mdl : SparseAutoEncoder n m) {b : ℕ} (X : Fin b → Fin m → ℝ) (weight : ℝ) :
    SparseAutoEncoder n m × (Fin b → Fin n → ℝ) × (Fin b → Fin m → ℝ) × ℝ :=
  let r := SparseAutoEncoder.forward mdl X
  (r.1, r.2.1, r.2.2,
    (∑ i, ∑ j, (X i j - r.2.2 i j) ^ 2) + weight * ∑ i, ∑ j, |r.2.1 i j|)

/-- `GatedSAE` state (`models.py` lines 96-119). -/
structure GatedSAE (n m : ℕ) where
  learn_D : Bool
  D_ : Fin n → Fin m → ℝ
  W_gate : Fin m → Fin n → ℝ
  b_dec : Fin m → ℝ
  b_enc_gate : Fin n → ℝ
  b_dec_gate : Fin m → ℝ
  r_mag : Fin n → ℝ
  b_mag : Fin n → ℝ
  b_gate : Fin n → ℝ

/-- `GatedSAE.__init__`; `kaimingD`/`kaimingW` stand for the seeded
Kaiming-uniform draws.  Note the final line of `__init__` renormalizes the
rows of `D_` unconditionally, also when `learn_D=False`. -/
noncomputable def GatedSAE.init {n m : ℕ} (D : Fin n → Fin m → ℝ)
    (learn_D : Bool) (kaimingD : Fin n → Fin m → ℝ)
    (kaimingW : Fin m → Fin n → ℝ) : GatedSAE n m :=
  { learn_D := learn_D
    D_ := normalizeRows (if learn_D then kaimingD else D)
    W_gate := kaimingW
    b_dec := fun _ => 0
    b_enc_gate := fun _ => 0
    b_dec_gate := fun _ => 0
    r_mag := fun _ => 0
    b_mag := fun _ => 0
    b_gate := fun _ => 0 }

/-- `preactivations_hidden = (X - b_dec) @ W_gate`. -/
noncomputable def GatedSAE.preactivations_hidden {n m : ℕ} (mdl : GatedSAE n m)
    {b : ℕ} (X : Fin b → Fin m → ℝ) : Fin b → Fin n → ℝ :=
  fun i j => ∑ k, (X i k - mdl.b_dec k) * mdl.W_gate k j

/-- `pre_mag_hidden = preactivations_hidden * exp(r_mag) + b_mag`. -/
noncomputable def GatedSAE.pre_mag_hidden {n m : ℕ} (mdl : GatedSAE n m)
    {b : ℕ} (X : Fin b → Fin m → ℝ) : Fin b → Fin n → ℝ :=
  fun i j => GatedSAE.preactivations_hidden mdl X i j * Real.exp (mdl.r_mag j)
    + mdl.b_mag j

/-- `post_mag_hidden = torch.relu(pre_mag_hidden)`. -/
noncomputable def GatedSAE.post_mag_hidden {n m : ℕ} (mdl : GatedSAE n m)
    {b : ℕ} (X : Fin b → Fin m → ℝ) : Fin b → Fin n → ℝ :=
  fun i j => relu (GatedSAE.pre_mag_hidden mdl X i j)

/-- `pre_gate_hidden = preactivations_hidden + b_gate`. -/
noncomputable def GatedSAE.pre_gate_hidden {n m : ℕ} (mdl : GatedSAE n m)
    {b : ℕ} (X : Fin b → Fin m → ℝ) : Fin b → Fin n → ℝ :=
  fun i j => GatedSAE.preactivations_hidden mdl X i j + mdl.b_gate j

/-- `post_gate_hidden = (torch.sign(pre_gate_hidden) + 1) / 2`. -/
noncomputable def GatedSAE.post_gate_hidden {n m : ℕ} (mdl : GatedSAE n m)
    {b : ℕ} (X : Fin b → Fin m → ℝ) : Fin b → Fin n → ℝ :=
  fun i j => (torchSign (GatedSAE.pre_gate_hidden mdl X i j) + 1) / 2

/-- `GatedSAE.forward(X)` (`models.py` lines 131-142): renormalize the
dictionary when learned, `S_ = post_mag_hidden * post_gate_hidden`,
`X_ = S_ @ D_ + b_dec`; returns the updated state with
`(S_, X_, pre_gate_hidden)`. -/
noncomputable def GatedSAE.forward {n m : ℕ} (mdl : GatedSAE n m)
    {b : ℕ} (X : Fin b → Fin m → ℝ) :
    GatedSAE n m ×
      (Fin b → Fin n → ℝ) × (Fin b → Fin m → ℝ) × (Fin b → Fin n → ℝ) :=
  let D := if mdl.learn_D then normalizeRows mdl.D_ else mdl.D_
  let S_ := fun i j =>
    GatedSAE.post_mag_hidden mdl X i j * GatedSAE.post_gate_hidden mdl X i j
  ({ mdl with D_ := D }, S_,
    fun i k => (∑ j, S_ i j * D j k) + mdl.b_dec k,
    GatedSAE.pre_gate_hidden mdl X)

/-- `GatedSAE.loss_forward(X, l1_weight)`: mean reconstruction loss, gate
magnitude penalty, and the auxiliary loss through the detached decoder. -/
noncomputable def GatedSAE.loss_forward {n m : ℕ} (mdl : GatedSAE n m)
    {b : ℕ} (X : Fin b → Fin m → ℝ) (l1_weight : ℝ) :
    GatedSAE n m ×
      (Fin b → Fin n → ℝ) × (Fin b → Fin m → ℝ) × ℝ :=
  let r := GatedSAE.forward mdl X
  let gate_magnitude := fun i j => relu (r.2.2.2 i j)
  let gate_reconstruction :=
    fun i k => (∑ j, gate_magnitude i j * r.1.D_ j k) + mdl.b_dec k
  (r.1, r.2.1, r.2.2.1,
    (∑ i, ∑ k, (r.2.2.1 i k - X i k) ^ 2) / (b * m)
      + l1_weight * (∑ i, ∑ j, gate_magnitude i j)
      + (∑ i, ∑ k, (gate_reconstruction i k - X i k) ^ 2) / (b * m))

/-- `GatedSAE.make_decoder_weights_and_grad_unit_norm` (`models.py` lines
164-168), as a function of the stored dictionary and its stored gradient;
returns the dictionary and the gradient as they stand after the call.  The
local `D_normed` is used only to project the gradient; `self.D_` itself is
not reassigned. -/
noncomputable def GatedSAE.make_decoder_weights_and_grad_unit_norm {n m : ℕ}
    (D grad : Fin n → Fin m → ℝ) :
    (Fin n → Fin m → ℝ) × (Fin n → Fin m → ℝ) :=
  let D_normed := fun i j => D i j / rowNorm D i
  let D_grad_proj := fun i j => (∑ k, grad i k * D_normed i k) * D_normed i j
  (D, fun i j => grad i j - D_grad_proj i j)

/-- `TopKSAE` state (`models.py` lines 186-202): the bias-free
`nn.Linear(M, N)` encoder weight, `latent_bias`, the `TopK` activation
module, the dictionary and `pre_bias`. -/
structure TopKSAE (n m : ℕ) where
  learn_D : Bool
  weight : Fin n → Fin m → ℝ
  latent_bias : Fin n → ℝ
  activation : TopK ℝ
  D_ : Fin n → Fin m → ℝ
  pre_bias : Fin m → ℝ

/-- `TopKSAE.__init__`; `randW` stands for the seeded `nn.Linear`
initialization and `randD` for `torch.randn(D.shape)`. -/
noncomputable def TopKSAE.init {n m : ℕ} (D : Fin n → Fin m → ℝ)
    (learn_D : Bool) (k : ℕ) (postact_fn : ℝ → ℝ)
    (randW : Fin n → Fin m → ℝ) (randD : Fin n → Fin m → ℝ) : TopKSAE n m :=
  { learn_D := learn_D
    weight := randW
    latent_bias := fun _ => 0
    activation := ⟨k, postact_fn⟩
    D_ := if learn_D then randD else D
    pre_bias := fun _ => 0 }

/-- `TopKSAE.forward(X)` (`models.py` lines 204-213): renormalize the
dictionary when learned (this happens before the top-k call), subtract
`pre_bias`, apply the encoder plus `latent_bias`, then the row-wise `TopK`
activation, and reconstruct `X_ = S_ @ D_ + pre_bias`.  The `torch.topk`
failure for `k > N` propagates as `none`; the dictionary update has already
happened by then. -/
noncomputable def TopKSAE.forward {n m : ℕ} (mdl : TopKSAE n m)
    {b : ℕ} (X : Fin b → Fin m → ℝ) :
    TopKSAE n m × Option ((Fin b → Fin n → ℝ) × (Fin b → Fin m → ℝ)) :=
  let D := if mdl.learn_D then normalizeRows mdl.D_ else mdl.D_
  let X_centered := fun i k => X i k - mdl.pre_bias k
  let S_pre_act := fun i j => (∑ k, X_centered i k * mdl.weight j k) + mdl.latent_bias j
  let S_ := fun i => mdl.activation.apply (S_pre_act i)
  ({ mdl with D_ := D },
    if mdl.activation.k ≤ n then
      some (S_, fun i k => (∑ j, S_ i j * D j k) + mdl.pre_bias k)
    else none)

/-- `TopKSAE.loss_forward(X, weight)` (`models.py` lines 215-218):
`F.mse_loss(X_, X, reduction='sum')`; the `weight` argument is unused. -/
noncomputable def TopKSAE.loss_forward {n m : ℕ} (mdl : TopKSAE n m)
    {b : ℕ} (X : Fin b → Fin m → ℝ) (weight : ℝ) :
    TopKSAE n m × Option ((Fin b → Fin n → ℝ) × (Fin b → Fin m → ℝ) × ℝ) :=
  let r := TopKSAE.forward mdl X
  (r.1, r.2.map (fun y => (y.1, y.2, ∑ i, ∑ j, (y.2 i j - X i j) ^ 2)))

end Models

section NormLemmas

theorem sum_sq_div_sqrt_sum_sq {m : ℕ} (v : Fin m → ℝ) (h : v ≠ 0) :
    ∑ j, (v j / Real.sqrt (∑ j, v j ^ 2)) ^ 2 = 1 := by
  obtain ⟨j0, hj0⟩ := Function.ne_iff.mp h
  have hs : 0 < ∑ j, v j ^ 2 := by
    refine Finset.sum_pos' (fun j _ => sq_nonneg _) ⟨j0, Finset.mem_univ _, ?_⟩
    exact lt_of_le_of_ne (sq_nonneg _) (Ne.symm (pow_ne_zero 2 hj0))
  have hsq : Real.sqrt (∑ j, v j ^ 2) ^ 2 = ∑ j, v j ^ 2 :=
    Real.sq_sqrt hs.le
  calc ∑ j, (v j / Real.sqrt (∑ j, v j ^ 2)) ^ 2
      = ∑ j, v j ^ 2 / Real.sqrt (∑ j, v j ^ 2) ^ 2 := by
        simp [div_pow]
    _ = (∑ j, v j ^ 2) / (∑ j, v j ^ 2) := by
        rw [← Finset.sum_div, hsq]
    _ = 1 := div_self hs.ne'

theorem rowNorm_normalizeRows {n m : ℕ} (A : Fin n → Fin m → ℝ) (i : Fin n)
    (h : A i ≠ 0) : rowNorm (normalizeRows A) i = 1 := by
  have h1 : ∑ j, (A i j / Real.sqrt (∑ j, A i j ^ 2)) ^ 2 = 1 :=
    sum_sq_div_sqrt_sum_sq (A i) h
  simp only [normalizeRows, rowNorm]
  rw [h1, Real.sqrt_one]

end NormLemmas

/-- Claim C1: for every input row `x` and every `k` at most the size of the
last dimension, `TopK.forward` succeeds and returns a row of the same shape
that is exactly zero outside the selected top-k indices and equals
`postact_fn` of the original value at each selected index; the selected
indices are `k` distinct positions holding the `k` largest values of the row. -/
theorem C1_topk_forward (α : Type) [LinearOrderedField α] {n : ℕ} (k : ℕ)
    (postact_fn : α → α) (x : Fin n → α) (hk : k ≤ n) :
    TopK.forward ⟨k, postact_fn⟩ x =
        some (fun j => if j ∈ topkIndices x k then postact_fn (x j) else 0) ∧
      (topkIndices x k).length = k ∧ (topkIndices x k).Nodup ∧
      ∀ i ∈ topkIndices x k, ∀ j, j ∉ topkIndices x k → x j ≤ x i := by
  refine ⟨?_, topkIndices_length hk, topkIndices_nodup, topkIndices_dominates⟩
  unfold TopK.forward
  rw [if_pos hk, TopK.apply_eq]

/-- Witness for C1 at a concrete input over `ℚ`: `k = 2`, `n = 3`,
post-activation `relu`. -/
theorem C1_topk_forward_witness :
    (2 ≤ 3 ∧
      (TopK.forward ⟨2, relu⟩ (![5, 1, 3] : Fin 3 → ℚ) =
          some (fun j => if j ∈ topkIndices (![5, 1, 3] : Fin 3 → ℚ) 2
            then relu ((![5, 1, 3] : Fin 3 → ℚ) j) else 0) ∧
        (topkIndices (![5, 1, 3] : Fin 3 → ℚ) 2).length = 2 ∧
        (topkIndices (![5, 1, 3] : Fin 3 → ℚ) 2).Nodup ∧
        ∀ i ∈ topkIndices (![5, 1, 3] : Fin 3 → ℚ) 2,
          ∀ j, j ∉ topkIndices (![5, 1, 3] : Fin 3 → ℚ) 2 →
            (![5, 1, 3] : Fin 3 → ℚ) j ≤ (![5, 1, 3] : Fin 3 → ℚ) i)) ∧
      topkIndices (![5, 1, 3] : Fin 3 → ℚ) 2 = [0, 2] :=
  ⟨⟨by norm_num, C1_topk_forward ℚ 2 relu ![5, 1, 3] (by norm_num)⟩, by decide⟩

section SignLemmas

theorem torchSign_of_neg {α : Type} [LinearOrderedField α] {a : α} (h : a < 0) :
    torchSign a = -1 := by
  unfold torchSign
  rw [if_pos h]

theorem torchSign_of_zero {α : Type} [LinearOrderedField α] {a : α} (h : a = 0) :
    torchSign a = 0 := by
  unfold torchSign
  rw [if_neg (by simp [h]), if_pos h]

theorem torchSign_of_pos {α : Type} [LinearOrderedField α] {a : α} (h : 0 < a) :
    torchSign a = 1 := by
  unfold torchSign
  rw [if_neg (by linarith), if_neg (by linarith)]

theorem gate_cases (a : ℝ) :
    (torchSign a + 1) / 2 = 0 ∨ (torchSign a + 1) / 2 = 1 / 2 ∨
      (torchSign a + 1) / 2 = 1 := by
  rcases lt_trichotomy a 0 with h | h | h
  · left
    rw [torchSign_of_neg h]
    norm_num
  · right; left
    rw [torchSign_of_zero h]
    norm_num
  · right; right
    rw [torchSign_of_pos h]
    norm_num

theorem gate_nonneg (a : ℝ) : 0 ≤ (torchSign a + 1) / 2 := by
  rcases gate_cases a with h | h | h <;> rw [h] <;> norm_num

end SignLemmas

/-- Claim C2: for each of the four models, when `learn_D = true`, the state
right after any `forward` call has a dictionary whose rows all have L2 norm
exactly 1, provided no row of the pre-call dictionary is the zero vector. -/
theorem C2_unit_norm_rows {b n m : ℕ} :
    (∀ (mdl : SparseCoding b n m) (X : Option (Fin b → Fin m → ℝ)),
        mdl.learn_D = true → (∀ i, mdl.D_ i ≠ 0) →
        ∀ i, rowNorm (SparseCoding.forward mdl X).1.D_ i = 1) ∧
    (∀ (mdl : SparseAutoEncoder n m) (X : Fin b → Fin m → ℝ),
        mdl.learn_D = true → (∀ i, mdl.D_ i ≠ 0) →
        ∀ i, rowNorm (SparseAutoEncoder.forward mdl X).1.D_ i = 1) ∧
    (∀ (mdl : GatedSAE n m) (X : Fin b → Fin m → ℝ),
        mdl.learn_D = true → (∀ i, mdl.D_ i ≠ 0) →
        ∀ i, rowNorm (GatedSAE.forward mdl X).1.D_ i = 1) ∧
    (∀ (mdl : TopKSAE n m) (X : Fin b → Fin m → ℝ),
        mdl.learn_D = true → (∀ i, mdl.D_ i ≠ 0) →
        ∀ i, rowNorm (TopKSAE.forward mdl X).1.D_ i = 1) := by
  refine ⟨?_, ?_, ?_, ?_⟩
  · intro mdl X hL hrow i
    simp only [SparseCoding.forward, hL, if_true]
    exact rowNorm_normalizeRows _ _ (hrow i)
  · intro mdl X hL hrow i
    simp only [SparseAutoEncoder.forward, hL, if_true]
    exact rowNorm_normalizeRows _ _ (hrow i)
  · intro mdl X hL hrow i
    simp only [GatedSAE.forward, hL, if_true]
    exact rowNorm_normalizeRows _ _ (hrow i)
  · intro mdl X hL hrow i
    simp only [TopKSAE.forward, hL, if_true]
    exact rowNorm_normalizeRows _ _ (hrow i)

/-- Witness for C2: concrete one-row models with dictionary row `(2, 0)`. -/
theorem C2_unit_norm_rows_witness :
    rowNorm (SparseCoding.forward
      (⟨true, fun _ _ => 0, ![![2, 0]]⟩ : SparseCoding 1 1 2) none).1.D_ 0 = 1 ∧
    rowNorm (SparseAutoEncoder.forward
      (⟨true, true, fun _ _ => 0, fun _ => 0, ![![2, 0]]⟩ : SparseAutoEncoder 1 2)
      (fun _ _ => 0 : Fin 1 → Fin 2 → ℝ)).1.D_ 0 = 1 ∧
    rowNorm (GatedSAE.forward
      (⟨true, ![![2, 0]], fun _ _ => 0, fun _ => 0, fun _ => 0, fun _ => 0,
        fun _ => 0, fun _ => 0, fun _ => 0⟩ : GatedSAE 1 2)
      (fun _ _ => 0 : Fin 1 → Fin 2 → ℝ)).1.D_ 0 = 1 ∧
    rowNorm (TopKSAE.forward
      (⟨true, fun _ _ => 0, fun _ => 0, ⟨1, relu⟩, ![![2, 0]], fun _ => 0⟩ :
        TopKSAE 1 2)
      (fun _ _ => 0 : Fin 1 → Fin 2 → ℝ)).1.D_ 0 = 1 := by
  have hrow : ∀ i : Fin 1, (![![2, 0]] : Fin 1 → Fin 2 → ℝ) i ≠ 0 := by
    intro i h
    have hi : i = 0 := Subsingleton.elim i 0
    subst hi
    have h2 := congrFun h 0
    simp at h2
  exact ⟨C2_unit_norm_rows.1 _ none rfl hrow 0,
    C2_unit_norm_rows.2.1 _ _ rfl hrow 0,
    C2_unit_norm_rows.2.2.1 _ _ rfl hrow 0,
    C2_unit_norm_rows.2.2.2 _ _ rfl hrow 0⟩

/-- Claim C3: the code matrix `S_` returned by `forward` is element-wise
non-negative for every model and input: strictly positive for `SparseCoding`
(exponential of the log-codes), non-negative for `SparseAutoEncoder` (ReLU or
exponential activation), for `GatedSAE` (ReLU magnitude times a gate value),
and for `TopKSAE` with the default ReLU post-activation. -/
theorem C3_code_nonneg {b n m : ℕ} :
    (∀ (mdl : SparseCoding b n m) (X : Option (Fin b → Fin m → ℝ)) i j,
        0 < (SparseCoding.forward mdl X).2.1 i j) ∧
    (∀ (mdl : SparseAutoEncoder n m) (X : Fin b → Fin m → ℝ) i j,
        0 ≤ (SparseAutoEncoder.forward mdl X).2.1 i j) ∧
    (∀ (mdl : GatedSAE n m) (X : Fin b → Fin m → ℝ) i j,
        0 ≤ (GatedSAE.forward mdl X).2.1 i j) ∧
    (∀ (mdl : TopKSAE n m) (X : Fin b → Fin m → ℝ)
        (S_ : Fin b → Fin n → ℝ) (X_ : Fin b → Fin m → ℝ),
        mdl.activation.postact_fn = relu →
        (TopKSAE.forward mdl X).2 = some (S_, X_) →
        ∀ i j, 0 ≤ S_ i j) := by
  refine ⟨?_, ?_, ?_, ?_⟩
  · intro mdl X i j
    simp only [SparseCoding.forward]
    exact Real.exp_pos _
  · intro mdl X i j
    simp only [SparseAutoEncoder.forward]
    by_cases hr : mdl.relu
    · simp only [hr, if_true]
      exact le_max_right _ _
    · simp only [hr, if_false]
      exact (Real.exp_pos _).le
  · intro mdl X i j
    simp only [GatedSAE.forward]
    refine mul_nonneg ?_ (gate_nonneg _)
    unfold GatedSAE.post_mag_hidden relu
    exact le_max_right _ _
  · intro mdl X S_ X_ hpost hfwd i j
    by_cases hk : mdl.activation.k ≤ n
    · simp only [TopKSAE.forward, hk, if_true, Option.some.injEq,
        Prod.mk.injEq] at hfwd
      obtain ⟨hS, _⟩ := hfwd
      subst hS
      simp only [TopK.apply_eq, hpost, relu]
      split
      · exact le_max_right _ _
      · exact le_refl _
    · simp only [TopKSAE.forward, hk, if_false] at hfwd
      exact absurd hfwd (by simp)

/-- Witness for C3: concrete evaluations of each conjunct; for the `TopKSAE`
part, a one-atom model with `k = 1` and ReLU post-activation, whose `forward`
is computed explicitly. -/
theorem C3_code_nonneg_witness :
    (0 < (SparseCoding.forward
      (⟨true, fun _ _ => 0, ![![1]]⟩ : SparseCoding 1 1 1) none).2.1 0 0) ∧
    (0 ≤ (SparseAutoEncoder.forward
      (⟨false, true, fun _ _ => 0, fun _ => 0, ![![1]]⟩ : SparseAutoEncoder 1 1)
      (fun _ _ => 0 : Fin 1 → Fin 1 → ℝ)).2.1 0 0) ∧
    (0 ≤ (GatedSAE.forward
      (⟨false, ![![1]], fun _ _ => 0, fun _ => 0, fun _ => 0, fun _ => 0,
        fun _ => 0, fun _ => 0, fun _ => 0⟩ : GatedSAE 1 1)
      (fun _ _ => 0 : Fin 1 → Fin 1 → ℝ)).2.1 0 0) ∧
    ((⟨false, fun _ _ => 0, fun _ => 0, ⟨1, relu⟩, ![![1]], fun _ => 0⟩ :
        TopKSAE 1 1).activation.postact_fn = relu ∧
      (TopKSAE.forward
        (⟨false, fun _ _ => 0, fun _ => 0, ⟨1, relu⟩, ![![1]], fun _ => 0⟩ :
          TopKSAE 1 1) (fun _ _ => 0 : Fin 1 → Fin 1 → ℝ)).2 =
        some (fun _ _ => 0, fun _ _ => 0) ∧
      0 ≤ (fun _ _ => (0 : ℝ) : Fin 1 → Fin 1 → ℝ) 0 0) := by
  have hfwd : (TopKSAE.forward
      (⟨false, fun _ _ => 0, fun _ => 0, ⟨1, relu⟩, ![![1]], fun _ => 0⟩ :
        TopKSAE 1 1) (fun _ _ => 0 : Fin 1 → Fin 1 → ℝ)).2 =
      some (fun _ _ => 0, fun _ _ => 0) := by
    simp only [TopKSAE.forward]
    norm_num
    constructor
    · funext i j
      rw [TopK.apply_eq]
      simp [relu]
    · funext i j
      rw [TopK.apply_eq]
      simp [relu]
  exact ⟨C3_code_nonneg.1 _ none 0 0,
    C3_code_nonneg.2.1 _ _ 0 0,
    C3_code_nonneg.2.2.1 _ _ 0 0,
    rfl, hfwd, C3_code_nonneg.2.2.2 _ _ _ _ rfl hfwd 0 0⟩

/-- Claim C4 (code bug): at the concrete state `D_ = [[3, 4]]` with stored
gradient `[[1, 0]]`, `make_decoder_weights_and_grad_unit_norm` leaves the
stored dictionary unchanged — the locally computed `D_normed` is never
assigned back — so the stored row norm stays `5 ≠ 1`, contradicting the
claim that the stored parameter itself is renormalized. -/
theorem C4_decoder_weights_not_renormalized :
    (GatedSAE.make_decoder_weights_and_grad_unit_norm
        ![![(3 : ℝ), 4]] ![![1, 0]]).1 = ![![(3 : ℝ), 4]] ∧
      rowNorm (GatedSAE.make_decoder_weights_and_grad_unit_norm
        ![![(3 : ℝ), 4]] ![![1, 0]]).1 0 ≠ 1 := by
  have h1 : (GatedSAE.make_decoder_weights_and_grad_unit_norm
      ![![(3 : ℝ), 4]] ![![1, 0]]).1 = ![![(3 : ℝ), 4]] := rfl
  refine ⟨h1, ?_⟩
  rw [h1]
  have hval : (![![(3 : ℝ), 4]] : Fin 1 → Fin 2 → ℝ) 0 0 ^ 2 +
      (![![(3 : ℝ), 4]] : Fin 1 → Fin 2 → ℝ) 0 1 ^ 2 = 5 ^ 2 := by
    norm_num
  have hnorm : rowNorm (![![(3 : ℝ), 4]] : Fin 1 → Fin 2 → ℝ) 0 = 5 := by
    unfold rowNorm
    rw [Fin.sum_univ_two, hval, Real.sqrt_sq (by norm_num : (0 : ℝ) ≤ 5)]
  rw [hnorm]
  norm_num

/-- Claim C5: after `make_decoder_weights_and_grad_unit_norm`, each row of
the stored gradient is orthogonal to that row's own pre-call normalized
direction (exactly, in real arithmetic), provided the row is nonzero. -/
theorem C5_grad_dot_normalized_zero {n m : ℕ} (D grad : Fin n → Fin m → ℝ)
    (i : Fin n) (h : D i ≠ 0) :
    ∑ j, (GatedSAE.make_decoder_weights_and_grad_unit_norm D grad).2 i j *
      (D i j / rowNorm D i) = 0 := by
  have hdd : ∑ j, (D i j / rowNorm D i) ^ 2 = 1 := by
    unfold rowNorm
    exact sum_sq_div_sqrt_sum_sq (D i) h
  simp only [GatedSAE.make_decoder_weights_and_grad_unit_norm]
  have expand : ∀ j, (grad i j -
        (∑ k, grad i k * (D i k / rowNorm D i)) * (D i j / rowNorm D i)) *
        (D i j / rowNorm D i) =
      grad i j * (D i j / rowNorm D i) -
        (∑ k, grad i k * (D i k / rowNorm D i)) * (D i j / rowNorm D i) ^ 2 := by
    intro j
    ring
  rw [Finset.sum_congr rfl fun j _ => expand j, Finset.sum_sub_distrib,
    ← Finset.mul_sum, hdd, mul_one, sub_self]

/-- Witness for C5: dictionary row `(2, 0)` with gradient row `(1, 1)`. -/
theorem C5_grad_dot_normalized_zero_witness :
    (![![(2 : ℝ), 0]] : Fin 1 → Fin 2 → ℝ) 0 ≠ 0 ∧
    ∑ j, (GatedSAE.make_decoder_weights_and_grad_unit_norm
        ![![(2 : ℝ), 0]] ![![1, 1]]).2 0 j *
      ((![![(2 : ℝ), 0]] : Fin 1 → Fin 2 → ℝ) 0 j /
        rowNorm (![![(2 : ℝ), 0]] : Fin 1 → Fin 2 → ℝ) 0) = 0 := by
  have h : (![![(2 : ℝ), 0]] : Fin 1 → Fin 2 → ℝ) 0 ≠ 0 := by
    intro hrow
    have h2 := congrFun hrow 0
    simp at h2
  exact ⟨h, C5_grad_dot_normalized_zero _ _ 0 h⟩

/-- Claim C6: `TopKSAE.loss_forward(X, weight)` returns the sum over all
entries of the squared reconstruction error, with no sparsity term; the
result does not depend on `weight` at all. -/
theorem C6_topk_loss_unused_weight {n m b : ℕ} (mdl : TopKSAE n m)
    (X : Fin b → Fin m → ℝ) (w w' : ℝ) :
    TopKSAE.loss_forward mdl X w = TopKSAE.loss_forward mdl X w' ∧
    (TopKSAE.loss_forward mdl X w).2 =
      (TopKSAE.forward mdl X).2.map
        (fun y => (y.1, y.2, ∑ i, ∑ j, (y.2 i j - X i j) ^ 2)) :=
  ⟨rfl, rfl⟩

/-- Claim C7: in `GatedSAE.forward`, each entry of `post_gate_hidden` is `0`
when the corresponding `pre_gate_hidden` entry is negative, exactly `1/2`
when it is exactly zero, `1` when it is positive, hence always lies in
`{0, 1/2, 1}`; and the returned `S_` is `post_mag_hidden * post_gate_hidden`. -/
theorem C7_gate_values {n m b : ℕ} (mdl : GatedSAE n m)
    (X : Fin b → Fin m → ℝ) (i : Fin b) (j : Fin n) :
    (GatedSAE.pre_gate_hidden mdl X i j < 0 →
        GatedSAE.post_gate_hidden mdl X i j = 0) ∧
    (GatedSAE.pre_gate_hidden mdl X i j = 0 →
        GatedSAE.post_gate_hidden mdl X i j = 1 / 2) ∧
    (0 < GatedSAE.pre_gate_hidden mdl X i j →
        GatedSAE.post_gate_hidden mdl X i j = 1) ∧
    GatedSAE.post_gate_hidden mdl X i j ∈ ({0, 1 / 2, 1} : Set ℝ) ∧
    (GatedSAE.forward mdl X).2.1 i j =
      GatedSAE.post_mag_hidden mdl X i j * GatedSAE.post_gate_hidden mdl X i j := by
  refine ⟨?_, ?_, ?_, ?_, rfl⟩
  · intro h
    unfold GatedSAE.post_gate_hidden
    rw [torchSign_of_neg h]
    norm_num
  · intro h
    unfold GatedSAE.post_gate_hidden
    rw [torchSign_of_zero h]
    norm_num
  · intro h
    unfold GatedSAE.post_gate_hidden
    rw [torchSign_of_pos h]
    norm_num
  · unfold GatedSAE.post_gate_hidden
    rcases gate_cases (GatedSAE.pre_gate_hidden mdl X i j) with h | h | h <;>
      rw [h] <;> simp

/-- Witness for C7: a `1 × 1` gated model with `W_gate ≡ 1` and zero biases,
on the inputs `-1`, `0` and `1`, hits the three gate cases `0`, `1/2`, `1`. -/
theorem C7_gate_values_witness :
    GatedSAE.post_gate_hidden
      (⟨false, ![![1]], fun _ _ => 1, fun _ => 0, fun _ => 0, fun _ => 0,
        fun _ => 0, fun _ => 0, fun _ => 0⟩ : GatedSAE 1 1)
      (![![-1]] : Fin 1 → Fin 1 → ℝ) 0 0 = 0 ∧
    GatedSAE.post_gate_hidden
      (⟨false, ![![1]], fun _ _ => 1, fun _ => 0, fun _ => 0, fun _ => 0,
        fun _ => 0, fun _ => 0, fun _ => 0⟩ : GatedSAE 1 1)
      (![![0]] : Fin 1 → Fin 1 → ℝ) 0 0 = 1 / 2 ∧
    GatedSAE.post_gate_hidden
      (⟨false, ![![1]], fun _ _ => 1, fun _ => 0, fun _ => 0, fun _ => 0,
        fun _ => 0, fun _ => 0, fun _ => 0⟩ : GatedSAE 1 1)
      (![![1]] : Fin 1 → Fin 1 → ℝ) 0 0 = 1 := by
  have hneg : GatedSAE.pre_gate_hidden
      (⟨false, ![![1]], fun _ _ => 1, fun _ => 0, fun _ => 0, fun _ => 0,
        fun _ => 0, fun _ => 0, fun _ => 0⟩ : GatedSAE 1 1)
      (![![-1]] : Fin 1 → Fin 1 → ℝ) 0 0 < 0 := by
    norm_num [GatedSAE.pre_gate_hidden, GatedSAE.preactivations_hidden,
      Fin.sum_univ_one]
  have hzero : GatedSAE.pre_gate_hidden
      (⟨false, ![![1]], fun _ _ => 1, fun _ => 0, fun _ => 0, fun _ => 0,
        fun _ => 0, fun _ => 0, fun _ => 0⟩ : GatedSAE 1 1)
      (![![0]] : Fin 1 → Fin 1 → ℝ) 0 0 = 0 := by
    norm_num [GatedSAE.pre_gate_hidden, GatedSAE.preactivations_hidden,
      Fin.sum_univ_one]
  have hpos : 0 < GatedSAE.pre_gate_hidden
      (⟨false, ![![1]], fun _ _ => 1, fun _ => 0, fun _ => 0, fun _ => 0,
        fun _ => 0, fun _ => 0, fun _ => 0⟩ : GatedSAE 1 1)
      (![![1]] : Fin 1 → Fin 1 → ℝ) 0 0 := by
    norm_num [GatedSAE.pre_gate_hidden, GatedSAE.preactivations_hidden,
      Fin.sum_univ_one]
  exact ⟨(C7_gate_values _ _ 0 0).1 hneg,
    (C7_gate_values _ _ 0 0).2.1 hzero,
    (C7_gate_values _ _ 0 0).2.2.1 hpos⟩

/-- Counterexample to claim C8: `GatedSAE.__init__` renormalizes `D_`
unconditionally, so with `learn_D = false` and supplied dictionary
`[[3, 4]]` the stored `D_` right after construction is the normalized row
`[[3/5, 4/5]]`, not the supplied `[[3, 4]]`. -/
theorem C8_gated_init_renormalizes_counterexample :
    (GatedSAE.init (![![(3 : ℝ), 4]]) false (fun _ _ => 0)
      (fun _ _ => 0)).D_ ≠ ![![(3 : ℝ), 4]] := by
  intro h
  have hD : (GatedSAE.init (![![(3 : ℝ), 4]]) false (fun _ _ => 0)
      (fun _ _ => 0)).D_ = normalizeRows ![![(3 : ℝ), 4]] := by
    simp [GatedSAE.init]
  rw [hD] at h
  have h00 := congrFun (congrFun h 0) 0
  simp only [normalizeRows] at h00
  have hval : (![![(3 : ℝ), 4]] : Fin 1 → Fin 2 → ℝ) 0 0 ^ 2 +
      (![![(3 : ℝ), 4]] : Fin 1 → Fin 2 → ℝ) 0 1 ^ 2 = 5 ^ 2 := by
    norm_num
  have hnorm : rowNorm (![![(3 : ℝ), 4]] : Fin 1 → Fin 2 → ℝ) 0 = 5 := by
    unfold rowNorm
    rw [Fin.sum_univ_two, hval, Real.sqrt_sq (by norm_num : (0 : ℝ) ≤ 5)]
  rw [hnorm] at h00
  norm_num at h00

/-- Claim C8 (amended): with `learn_D = false`, `SparseCoding`,
`SparseAutoEncoder` and `TopKSAE` store exactly the supplied `D` at
construction, and no `forward` or `loss_forward` call of any model changes
`D_`; `GatedSAE` instead stores the row-normalized `D` at construction (its
`__init__` renormalizes unconditionally) and thereafter leaves it unchanged. -/
theorem C8_fixed_dictionary_preserved {b n m : ℕ} :
    (∀ (D randn : Fin n → Fin m → ℝ),
        (SparseCoding.init b D false randn).D_ = D) ∧
    (∀ (mdl : SparseCoding b n m) (X : Option (Fin b → Fin m → ℝ)),
        mdl.learn_D = false → (SparseCoding.forward mdl X).1.D_ = mdl.D_) ∧
    (∀ (mdl : SparseCoding b n m) (X : Fin b → Fin m → ℝ) (w : ℝ),
        mdl.learn_D = false →
        (SparseCoding.loss_forward mdl X w).1.D_ = mdl.D_) ∧
    (∀ (D : Fin n → Fin m → ℝ) (rl : Bool) (randW : Fin n → Fin m → ℝ)
        (randb : Fin n → ℝ) (randD : Fin n → Fin m → ℝ),
        (SparseAutoEncoder.init D false rl randW randb randD).D_ = D) ∧
    (∀ (mdl : SparseAutoEncoder n m) (X : Fin b → Fin m → ℝ),
        mdl.learn_D = false →
        (SparseAutoEncoder.forward mdl X).1.D_ = mdl.D_) ∧
    (∀ (mdl : SparseAutoEncoder n m) (X : Fin b → Fin m → ℝ) (w : ℝ),
        mdl.learn_D = false →
        (SparseAutoEncoder.loss_forward mdl X w).1.D_ = mdl.D_) ∧
    (∀ (D kD : Fin n → Fin m → ℝ) (kW : Fin m → Fin n → ℝ),
        (GatedSAE.init D false kD kW).D_ = normalizeRows D) ∧
    (∀ (mdl : GatedSAE n m) (X : Fin b → Fin m → ℝ),
        mdl.learn_D = false → (GatedSAE.forward mdl X).1.D_ = mdl.D_) ∧
    (∀ (mdl : GatedSAE n m) (X : Fin b → Fin m → ℝ) (w : ℝ),
        mdl.learn_D = false → (GatedSAE.loss_forward mdl X w).1.D_ = mdl.D_) ∧
    (∀ (D : Fin n → Fin m → ℝ) (k : ℕ) (pf : ℝ → ℝ)
        (randW randD : Fin n → Fin m → ℝ),
        (TopKSAE.init D false k pf randW randD).D_ = D) ∧
    (∀ (mdl : TopKSAE n m) (X : Fin b → Fin m → ℝ),
        mdl.learn_D = false → (TopKSAE.forward mdl X).1.D_ = mdl.D_) ∧
    (∀ (mdl : TopKSAE n m) (X : Fin b → Fin m → ℝ) (w : ℝ),
        mdl.learn_D = false →
        (TopKSAE.loss_forward mdl X w).1.D_ = mdl.D_) := by
  refine ⟨?_, ?_, ?_, ?_, ?_, ?_, ?_, ?_, ?_, ?_, ?_, ?_⟩
  · intro D randn
    simp [SparseCoding.init]
  · intro mdl X hL
    simp [SparseCoding.forward, hL]
  · intro mdl X w hL
    simp [SparseCoding.loss_forward, SparseCoding.forward, hL]
  · intro D rl randW randb randD
    simp [SparseAutoEncoder.init]
  · intro mdl X hL
    simp [SparseAutoEncoder.forward, hL]
  · intro mdl X w hL
    simp [SparseAutoEncoder.loss_forward, SparseAutoEncoder.forward, hL]
  · intro D kD kW
    simp [GatedSAE.init]
  · intro mdl X hL
    simp [GatedSAE.forward, hL]
  · intro mdl X w hL
    simp [GatedSAE.loss_forward, GatedSAE.forward, hL]
  · intro D k pf randW randD
    simp [TopKSAE.init]
  · intro mdl X hL
    simp [TopKSAE.forward, hL]
  · intro mdl X w hL
    simp [TopKSAE.loss_forward, TopKSAE.forward, hL]

/-- Witness for C8 (amended): concrete `learn_D = false` models with
dictionary `[[3]]`, on which `forward` and `loss_forward` leave `D_` at
`[[3]]`. -/
theorem C8_fixed_dictionary_preserved_witness :
    (SparseCoding.forward (⟨false, fun _ _ => 0, ![![3]]⟩ :
      SparseCoding 1 1 1) none).1.D_ = ![![(3 : ℝ)]] ∧
    (SparseCoding.loss_forward (⟨false, fun _ _ => 0, ![![3]]⟩ :
      SparseCoding 1 1 1) (fun _ _ => 0) 2).1.D_ = ![![(3 : ℝ)]] ∧
    (SparseAutoEncoder.forward (⟨false, true, fun _ _ => 0, fun _ => 0,
      ![![3]]⟩ : SparseAutoEncoder 1 1)
      (fun _ _ => 0 : Fin 1 → Fin 1 → ℝ)).1.D_ = ![![(3 : ℝ)]] ∧
    (SparseAutoEncoder.loss_forward (⟨false, true, fun _ _ => 0, fun _ => 0,
      ![![3]]⟩ : SparseAutoEncoder 1 1)
      (fun _ _ => 0 : Fin 1 → Fin 1 → ℝ) 2).1.D_ = ![![(3 : ℝ)]] ∧
    (GatedSAE.forward (⟨false, ![![3]], fun _ _ => 0, fun _ => 0, fun _ => 0,
      fun _ => 0, fun _ => 0, fun _ => 0, fun _ => 0⟩ : GatedSAE 1 1)
      (fun _ _ => 0 : Fin 1 → Fin 1 → ℝ)).1.D_ = ![![(3 : ℝ)]] ∧
    (GatedSAE.loss_forward (⟨false, ![![3]], fun _ _ => 0, fun _ => 0,
      fun _ => 0, fun _ => 0, fun _ => 0, fun _ => 0, fun _ => 0⟩ :
      GatedSAE 1 1)
      (fun _ _ => 0 : Fin 1 → Fin 1 → ℝ) 2).1.D_ = ![![(3 : ℝ)]] ∧
    (TopKSAE.forward (⟨false, fun _ _ => 0, fun _ => 0, ⟨1, relu⟩, ![![3]],
      fun _ => 0⟩ : TopKSAE 1 1)
      (fun _ _ => 0 : Fin 1 → Fin 1 → ℝ)).1.D_ = ![![(3 : ℝ)]] ∧
    (TopKSAE.loss_forward (⟨false, fun _ _ => 0, fun _ => 0, ⟨1, relu⟩,
      ![![3]], fun _ => 0⟩ : TopKSAE 1 1)
      (fun _ _ => 0 : Fin 1 → Fin 1 → ℝ) 2).1.D_ = ![![(3 : ℝ)]] :=
  ⟨C8_fixed_dictionary_preserved.2.1 _ none rfl,
    C8_fixed_dictionary_preserved.2.2.1 _ _ 2 rfl,
    C8_fixed_dictionary_preserved.2.2.2.2.1 _ _ rfl,
    C8_fixed_dictionary_preserved.2.2.2.2.2.1 _ _ 2 rfl,
    C8_fixed_dictionary_preserved.2.2.2.2.2.2.2.1 _ _ rfl,
    C8_fixed_dictionary_preserved.2.2.2.2.2.2.2.2.1 _ _ 2 rfl,
    C8_fixed_dictionary_preserved.2.2.2.2.2.2.2.2.2.2.1 _ _ rfl,
    C8_fixed_dictionary_preserved.2.2.2.2.2.2.2.2.2.2.2 _ _ 2 rfl⟩

/-- Claim C9: `SparseCoding.forward` ignores its `X` argument entirely: any
two argument values (including the default `None`) give identical results,
and the returned `S_` and `X_` are determined by the current parameters
alone (`S_ = exp(log_S_)`, `X_ = S_ @ D_` with the possibly renormalized
dictionary). -/
theorem C9_sparse_coding_forward_ignores_input {b n m : ℕ}
    (mdl : SparseCoding b n m) (X1 X2 : Option (Fin b → Fin m → ℝ)) :
    SparseCoding.forward mdl X1 = SparseCoding.forward mdl X2 ∧
    (SparseCoding.forward mdl X1).2.1 =
      (fun i j => Real.exp (mdl.log_S_ i j)) ∧
    (SparseCoding.forward mdl X1).2.2 =
      matmul (fun i j => Real.exp (mdl.log_S_ i j))
        (if mdl.learn_D then normalizeRows mdl.D_ else mdl.D_) :=
  ⟨rfl, rfl, rfl⟩

/-- Claim C10: `TopK.forward` succeeds exactly when `k` is at most the size
of the input's last dimension, and the failure propagates unguarded through
`TopKSAE.forward` (whose latent dimension is the number of atoms `N`). -/
theorem C10_topk_defined_iff_k_le_n {b n m : ℕ} :
    (∀ (α : Type) [LinearOrderedField α] (d : ℕ) (t : TopK α) (x : Fin d → α),
        (TopK.forward t x).isSome ↔ t.k ≤ d) ∧
    (∀ (mdl : TopKSAE n m) (X : Fin b → Fin m → ℝ),
        ((TopKSAE.forward mdl X).2).isSome ↔ mdl.activation.k ≤ n) := by
  constructor
  · intro α _ d t x
    by_cases hk : t.k ≤ d <;> simp [TopK.forward, hk]
  · intro mdl X
    by_cases hk : mdl.activation.k ≤ n <;> simp [TopKSAE.forward, hk]
